import Mathlib

/-!
Shallow embedding of `net/utils/tgcn.py` (class `ConvTemporalGraphical`).

Tensors are modelled as curried functions over `Fin`-indexed axes with
rational entries; float arithmetic is idealised as exact `ℚ` arithmetic.
`torch.exp` inside `softmax` is abstracted as a parameter `e : ℚ → ℚ`
(the softmax lemmas only need `e` to be positive), which keeps every
definition computable so that concrete witnesses evaluate by `decide`.

Dimension conventions, following the source docstring:
  `N`  batch size, `Cin` input channels, `Cout` output channels,
  `Tin` input sequence length, `V` number of graph nodes,
  `K` spatial kernel size (`kernel_size`), `tk ts tp td` the temporal
  kernel size / stride / padding / dilation of `self.conv`.
-/

namespace TGCN

/-- Learned parameters allocated in `ConvTemporalGraphical.__init__`:
`self.conv` is `nn.Conv2d(in_channels, out_channels * kernel_size,
kernel_size=(t_kernel_size, 1), padding=(t_padding, 0), stride=(t_stride, 1),
dilation=(t_dilation, 1), bias=bias)`; `self.conv_a` and `self.conv_b` are
`nn.Conv2d(in_channels, out_channels, 1)` (1x1 convolutions with bias).
`bias=False` on `self.conv` corresponds to `b = 0`.  The configuration
values `self.kernel_size = kernel_size` and `self.out_channels = out_channels`
are the type indices `K` and `Cout`. -/
structure GCNParams (Cin Cout K tk : ℕ) where
  w : Fin (Cout * K) → Fin Cin → Fin tk → ℚ
  b : Fin (Cout * K) → ℚ
  wa : Fin Cout → Fin Cin → ℚ
  ba : Fin Cout → ℚ
  wb : Fin Cout → Fin Cin → ℚ
  bb : Fin Cout → ℚ

/-- Output length of a 1-d convolution along the time axis, the standard
`torch.nn.Conv2d` output-size formula
`floor((Tin + 2*padding - dilation*(kernel-1) - 1) / stride) + 1`
specialised to the temporal axis of `self.conv`. -/
def outLen (Tin tk ts tp td : ℕ) : ℕ :=
  (Tin + 2 * tp - (td * (tk - 1) + 1)) / ts + 1

/-- Zero-padded read of the input at (possibly out-of-range) padded time
index `ti`: position `ti` of the padded signal is position `ti - tp` of `x`,
and reads outside `[tp, tp + Tin)` return the padding value `0`. -/
def padRead {N Cin Tin V : ℕ} (tp : ℕ)
    (x : Fin N → Fin Cin → Fin Tin → Fin V → ℚ)
    (n : Fin N) (c : Fin Cin) (ti : ℕ) (v : Fin V) : ℚ :=
  if h : tp ≤ ti ∧ ti - tp < Tin then x n c ⟨ti - tp, h.2⟩ v else 0

/-- `self.conv(x)`: a 2-d convolution with kernel `(tk, 1)`, so it convolves
only along the time axis (the node axis has kernel width 1), with stride
`(ts, 1)`, padding `(tp, 0)` and dilation `(td, 1)`, mapping `Cin` channels
to `Cout * K` channels. -/
def tconv {N Cin Cout K tk : ℕ} (ts tp td : ℕ) {Tin V : ℕ}
    (p : GCNParams Cin Cout K tk)
    (x : Fin N → Fin Cin → Fin Tin → Fin V → ℚ)
    (n : Fin N) (o : Fin (Cout * K)) (t : Fin (outLen Tin tk ts tp td))
    (v : Fin V) : ℚ :=
  p.b o + ∑ c : Fin Cin, ∑ i : Fin tk,
    p.w o c i * padRead tp x n c (t.val * ts + i.val * td) v

/-- A 1x1 convolution (`nn.Conv2d(in_channels, out_channels, 1)`): a
per-position channel mixing `y[n,o,t,v] = bias[o] + sum_c w[o,c] * x[n,c,t,v]`. -/
def conv1x1 {N Cin Cout Tin V : ℕ}
    (w : Fin Cout → Fin Cin → ℚ) (bias : Fin Cout → ℚ)
    (x : Fin N → Fin Cin → Fin Tin → Fin V → ℚ)
    (n : Fin N) (o : Fin Cout) (t : Fin Tin) (v : Fin V) : ℚ :=
  bias o + ∑ c : Fin Cin, w o c * x n c t v

/-- `A1 = self.conv_a(x).permute(0,3,1,2).contiguous().view(N, V, out_channels*T)`:
the flat index `j : Fin (Cout * Tin)` decomposes as channel `j / Tin` (slower)
and time `j % Tin` (faster), matching the row-major flattening of the
permuted `(N, V, Cout, T)` layout. -/
def A1mat {N Cin Cout Tin V : ℕ} (p : GCNParams Cin Cout K tk)
    (x : Fin N → Fin Cin → Fin Tin → Fin V → ℚ)
    (n : Fin N) (v : Fin V) (j : Fin (Cout * Tin)) : ℚ :=
  conv1x1 p.wa p.ba x n j.divNat j.modNat v

/-- `A2 = self.conv_b(x).view(N, out_channels*T, V)`: row-major flattening of
the `(Cout, T)` channel-time block of `self.conv_b(x)`, channel varying
slower. -/
def A2mat {N Cin Cout Tin V : ℕ} (p : GCNParams Cin Cout K tk)
    (x : Fin N → Fin Cin → Fin Tin → Fin V → ℚ)
    (n : Fin N) (j : Fin (Cout * Tin)) (v : Fin V) : ℚ :=
  conv1x1 p.wb p.bb x n j.divNat j.modNat v

/-- `concat_matrix = torch.matmul(A1, A2) / A1.size(-1)`: for each batch
element the `(V, Cout*T) x (Cout*T, V)` matrix product, every entry divided
by the contraction length `Cout * T`. -/
def concatMatrix {N Cin Cout Tin V : ℕ} (p : GCNParams Cin Cout K tk)
    (x : Fin N → Fin Cin → Fin Tin → Fin V → ℚ)
    (n : Fin N) (v w : Fin V) : ℚ :=
  (∑ j : Fin (Cout * Tin), A1mat p x n v j * A2mat p x n j w) /
    ((Cout * Tin : ℕ) : ℚ)

/-- Leading dimension of the tensor `result` built in `learnable_matrix`:
`A.size(0)` (i.e. `KA`) when the branch `N >= 2` is taken, otherwise the
batch size `N` (then `result = concat_matrix`). -/
def mDim (N KA : ℕ) : ℕ := if 2 ≤ N then KA else N

/-- The tensor `result` of `learnable_matrix` just before the softmax calls:
`result = torch.ones(A.size())`, then for `N >= 2` the loop
`for i in range(A.size(0)): result[i] = concat_matrix[0]` overwrites every
slice with batch element 0's affinity matrix (the initial ones survive
nowhere because the loop covers all of `range(A.size(0))`); for `N < 2` the
name is rebound to `concat_matrix` itself, of shape `(N, V, V)`. -/
def preResult {N Cin Cout Tin V : ℕ} (KA : ℕ) (p : GCNParams Cin Cout K tk)
    (x : Fin N → Fin Cin → Fin Tin → Fin V → ℚ)
    (k : Fin (mDim N KA)) (v w : Fin V) : ℚ :=
  if h : 2 ≤ N then
    concatMatrix p x ⟨0, Nat.lt_of_lt_of_le Nat.zero_lt_two h⟩ v w
  else
    concatMatrix p x (Fin.cast (by rw [mDim, if_neg h]) k) v w

/-- `t.softmax(dim=2)` on a rank-3 tensor, with `torch.exp` abstracted as
`e`: each innermost vector `t[k, v, :]` is normalised to
`e (t k v w) / sum_u e (t k v u)`. -/
def softmaxDim2 (e : ℚ → ℚ) {D V : ℕ} (t : Fin D → Fin V → Fin V → ℚ)
    (k : Fin D) (v w : Fin V) : ℚ :=
  e (t k v w) / ∑ u : Fin V, e (t k v u)

/-- `t.softmax(dim=1)` on a rank-3 tensor: normalisation along the first
node axis, `e (t k v w) / sum_u e (t k u w)`. -/
def softmaxDim1 (e : ℚ → ℚ) {D V : ℕ} (t : Fin D → Fin V → Fin V → ℚ)
    (k : Fin D) (v w : Fin V) : ℚ :=
  e (t k v w) / ∑ u : Fin V, e (t k u w)

/-- `ConvTemporalGraphical.learnable_matrix(x, A)`.  The adjacency argument
`A` is used by the source only through `A.size()` (the shape of
`torch.ones(A.size())` and the loop bound `range(A.size(0))`), which in this
embedding is the type-level data `KA, V`; its entries never enter the result.
The statement `result.softmax(dim=1)` computes a row-wise softmax whose
value is not assigned to anything (modelled by the discarded `let`); the
returned value is `result.softmax(dim=2)`, and the trailing
`.cuda(x.get_device())` device transfer is the identity on values. -/
def learnableMatrix (e : ℚ → ℚ) {N Cin Cout Tin V KA : ℕ}
    (p : GCNParams Cin Cout K tk)
    (x : Fin N → Fin Cin → Fin Tin → Fin V → ℚ)
    (_A : Fin KA → Fin V → Fin V → ℚ)
    (k : Fin (mDim N KA)) (v w : Fin V) : ℚ :=
  let result := preResult KA p x
  let _discarded := softmaxDim1 e result
  softmaxDim2 e result k v w

/-- Index of the flat channel axis of `self.conv(x)` corresponding to the
pair `(k, c)` after `x.view(n, self.kernel_size, kc // self.kernel_size, t, v)`:
the channel index decomposes as `k * Cout + c` with the kernel-partition
index `k` varying slower. -/
def chIdx {K Cout : ℕ} (k : Fin K) (c : Fin Cout) : Fin (Cout * K) :=
  ⟨k.val * Cout + c.val, by
    calc k.val * Cout + c.val < k.val * Cout + Cout :=
          Nat.add_lt_add_left c.isLt _
      _ = (k.val + 1) * Cout := by ring
      _ ≤ K * Cout := Nat.mul_le_mul_right Cout (Nat.succ_le_of_lt k.isLt)
      _ = Cout * K := Nat.mul_comm K Cout⟩

/-- The tensor `x.view(n, self.kernel_size, kc // self.kernel_size, t, v)`
obtained from `self.conv(x)`: slice `(k, c)` of the reshaped channel axis is
flat channel `k * Cout + c` of the temporal-convolution output. -/
def reshapedFeature {N Cin Cout K tk : ℕ} (ts tp td : ℕ) {Tin V : ℕ}
    (p : GCNParams Cin Cout K tk)
    (x : Fin N → Fin Cin → Fin Tin → Fin V → ℚ)
    (n : Fin N) (k : Fin K) (c : Fin Cout)
    (t : Fin (outLen Tin tk ts tp td)) (v : Fin V) : ℚ :=
  tconv ts tp td p x n (chIdx k c) t v

/-- PyTorch broadcasting of the leading axis in `A + M`: a leading dimension
`m` equal to the other operand's `K` is used as-is, a leading dimension `1`
is broadcast (slice 0 is reused for every `k`); any other combination is a
runtime shape error in torch, modelled as `0` and unreachable for the shapes
`learnable_matrix` produces (`m = KA` when `N >= 2`, `m = N = 1` otherwise). -/
def broadcastGet {m V : ℕ} (M : Fin m → Fin V → Fin V → ℚ) (K : ℕ)
    (k : Fin K) : Fin V → Fin V → ℚ :=
  if h : m = K then M (Fin.cast h.symm k)
  else if h1 : m = 1 then M (Fin.cast h1.symm (0 : Fin 1))
  else fun _ _ => 0

/-- The body of `ConvTemporalGraphical.forward(x, A)` after the assert:
`M = self.learnable_matrix(x, A)`, `x = self.conv(x)`, the `(K, Cout)`
reshape, and the contraction
`torch.einsum('nkctv,kvw->nctw', (x, A + M))`, returning the pair
`(x.contiguous(), A)` (`.contiguous()` is the identity on values). -/
def forward (e : ℚ → ℚ) {N Cin Cout K tk : ℕ} (ts tp td : ℕ) {Tin V : ℕ}
    (p : GCNParams Cin Cout K tk)
    (x : Fin N → Fin Cin → Fin Tin → Fin V → ℚ)
    (A : Fin K → Fin V → Fin V → ℚ) :
    (Fin N → Fin Cout → Fin (outLen Tin tk ts tp td) → Fin V → ℚ) ×
      (Fin K → Fin V → Fin V → ℚ) :=
  let M := learnableMatrix e p x A
  (fun n c t w => ∑ k : Fin K, ∑ v : Fin V,
      reshapedFeature ts tp td p x n k c t v *
        (A k v w + broadcastGet M K k v w),
   A)

/-- `ConvTemporalGraphical.forward` including its first statement
`assert A.size(0) == self.kernel_size`: an adjacency whose leading dimension
`KA` differs from the configured kernel size `K` raises `AssertionError`
before `self.learnable_matrix` or any convolution runs, modelled as `none`. -/
def forwardChecked (e : ℚ → ℚ) {N Cin Cout K tk : ℕ} (ts tp td : ℕ)
    {Tin V KA : ℕ} (p : GCNParams Cin Cout K tk)
    (x : Fin N → Fin Cin → Fin Tin → Fin V → ℚ)
    (A : Fin KA → Fin V → Fin V → ℚ) :
    Option ((Fin N → Fin Cout → Fin (outLen Tin tk ts tp td) → Fin V → ℚ) ×
      (Fin K → Fin V → Fin V → ℚ)) :=
  if h : KA = K then
    some (forward e ts tp td p x (fun k v w => A (Fin.cast h.symm k) v w))
  else none

/-- The method `forward` as a state transformer on the module's owned state
(its learned parameters; the configured `kernel_size` and `out_channels` are
the type indices `K` and `Cout`).  The source body contains no assignment to
any attribute of `self` (the rebinding `x = self.conv(x)` is a local
variable), so the translated method returns the state unchanged alongside
the value `forward` computes. -/
def forwardMethod (e : ℚ → ℚ) {N Cin Cout K tk : ℕ} (ts tp td : ℕ)
    {Tin V : ℕ} (p : GCNParams Cin Cout K tk)
    (x : Fin N → Fin Cin → Fin Tin → Fin V → ℚ)
    (A : Fin K → Fin V → Fin V → ℚ) :
    GCNParams Cin Cout K tk ×
      ((Fin N → Fin Cout → Fin (outLen Tin tk ts tp td) → Fin V → ℚ) ×
        (Fin K → Fin V → Fin V → ℚ)) :=
  (p, forward e ts tp td p x A)

/-! Concrete instances used by the witness theorems. -/

/-- Degenerate exponential stand-in, positive everywhere. -/
def e1 : ℚ → ℚ := fun _ => 1

/-- An injective positive-on-small-inputs stand-in for `exp`. -/
def e3 : ℚ → ℚ := fun q => q + 1

/-- Parameters for `in_channels=1, out_channels=1, kernel_size=1,
t_kernel_size=1`, all weights one and biases zero. -/
def p1 : GCNParams 1 1 1 1 :=
  ⟨fun _ _ _ => 1, fun _ => 0, fun _ _ => 1, fun _ => 0, fun _ _ => 1, fun _ => 0⟩

/-- Parameters for `in_channels=1, out_channels=1, kernel_size=2,
t_kernel_size=1`. -/
def p21 : GCNParams 1 1 2 1 :=
  ⟨fun _ _ _ => 1, fun _ => 0, fun _ _ => 1, fun _ => 0, fun _ _ => 1, fun _ => 0⟩

/-- A batch-2 input of shape `(2, 1, 1, 1)` whose two batch elements differ. -/
def xN2 : Fin 2 → Fin 1 → Fin 1 → Fin 1 → ℚ := fun n _ _ _ => (n.val : ℚ) + 1

/-- A batch-1 input of shape `(1, 1, 1, 1)`. -/
def x1 : Fin 1 → Fin 1 → Fin 1 → Fin 1 → ℚ := fun _ _ _ _ => 2

/-- Adjacency of shape `(1, 1, 1)`, all ones. -/
def Aone1 : Fin 1 → Fin 1 → Fin 1 → ℚ := fun _ _ _ => 1

/-- Adjacency of shape `(2, 1, 1)`, all ones. -/
def Aone2 : Fin 2 → Fin 1 → Fin 1 → ℚ := fun _ _ _ => 1

/-- A rank-3 tensor of shape `(1, 2, 2)` with a single nonzero entry at
`(0, 1, 0)`, on which the row-then-column softmax composite differs from
the column softmax alone. -/
def pre3 : Fin 1 → Fin 2 → Fin 2 → ℚ := fun _ v w => if v = 1 ∧ w = 0 then 1 else 0

/-! Claim theorems. -/

/-- C2: `forward(X, A)` returns as second output the adjacency tensor `A`
itself, unchanged; the first output has shape `(N, Cout, T_out, V)` — in
this embedding enforced by the return type
`Fin N → Fin Cout → Fin (outLen Tin tk ts tp td) → Fin V → ℚ` — where
`outLen` is exactly the standard convolution output-length formula applied
to `Tin` with `t_kernel_size, t_stride, t_padding, t_dilation`; in the
default temporal configuration the time length is preserved. -/
theorem forward_shape_passthrough (e : ℚ → ℚ) {N Cin Cout K tk : ℕ}
    (ts tp td : ℕ) {Tin V : ℕ} (p : GCNParams Cin Cout K tk)
    (x : Fin N → Fin Cin → Fin Tin → Fin V → ℚ)
    (A : Fin K → Fin V → Fin V → ℚ) :
    (forward e ts tp td p x A).2 = A ∧
      outLen Tin tk ts tp td = (Tin + 2 * tp - (td * (tk - 1) + 1)) / ts + 1 ∧
      ∀ T : ℕ, outLen (T + 1) 1 1 0 1 = T + 1 := by
  refine ⟨rfl, rfl, fun T => ?_⟩
  simp [outLen]

/-- C3: the matrix returned by `learnable_matrix` is the column-wise softmax
(normalisation along dim 2) of the pre-row-softmax tensor `result`; the
row-wise softmax (dim 1) is computed but its value is discarded and has no
effect on the returned matrix.  Moreover the discard is observable: on a
concrete tensor, applying the row softmax and then the column softmax gives
a different value than the column softmax alone. -/
theorem learnableMatrix_col_softmax_of_pre (e : ℚ → ℚ)
    {N Cin Cout Tin V KA : ℕ} {K tk : ℕ} (p : GCNParams Cin Cout K tk)
    (x : Fin N → Fin Cin → Fin Tin → Fin V → ℚ)
    (A : Fin KA → Fin V → Fin V → ℚ)
    (k : Fin (mDim N KA)) (v w : Fin V) :
    learnableMatrix e p x A k v w = softmaxDim2 e (preResult KA p x) k v w ∧
      softmaxDim2 e3 (softmaxDim1 e3 pre3) 0 0 0 ≠ softmaxDim2 e3 pre3 0 0 0 := by
  constructor
  · rfl
  · norm_num [softmaxDim2, softmaxDim1, e3, pre3, Fin.sum_univ_two]

/-- C7: `forward` is deterministic — two calls with identical inputs and
identical learned-parameter values (temporal-convolution, projection-A and
projection-B weights and biases) return identical output pairs. -/
theorem forward_deterministic (e : ℚ → ℚ) {N Cin Cout K tk : ℕ}
    (ts tp td : ℕ) {Tin V : ℕ} (p p' : GCNParams Cin Cout K tk)
    (x x' : Fin N → Fin Cin → Fin Tin → Fin V → ℚ)
    (A A' : Fin K → Fin V → Fin V → ℚ)
    (hp : p = p') (hx : x = x') (hA : A = A') :
    forward e ts tp td p x A = forward e ts tp td p' x' A' := by
  subst hp; subst hx; subst hA; rfl

/-- C7 witness: determinism instantiated at a concrete parameter set, input
and adjacency. -/
theorem forward_deterministic_witness :
    p1 = p1 ∧ x1 = x1 ∧ Aone1 = Aone1 ∧
      forward e1 1 0 1 p1 x1 Aone1 = forward e1 1 0 1 p1 x1 Aone1 :=
  ⟨rfl, rfl, rfl, forward_deterministic e1 1 0 1 p1 p1 x1 x1 Aone1 Aone1 rfl rfl rfl⟩

/-- C8: the `forward` method never mutates the unit's state — the learned
parameters (weights and biases of `self.conv`, `self.conv_a`, `self.conv_b`)
after a call are exactly what they were before (the configured
`kernel_size` and `out_channels` are the fixed type indices `K` and `Cout`),
the unit carries no other state, and the value returned is exactly the pure
`forward` computation on the unchanged parameters. -/
theorem forwardMethod_frame (e : ℚ → ℚ) {N Cin Cout K tk : ℕ}
    (ts tp td : ℕ) {Tin V : ℕ} (p : GCNParams Cin Cout K tk)
    (x : Fin N → Fin Cin → Fin Tin → Fin V → ℚ)
    (A : Fin K → Fin V → Fin V → ℚ) :
    (forwardMethod e ts tp td p x A).1 = p ∧
      (forwardMethod e ts tp td p x A).2 = forward e ts tp td p x A :=
  ⟨rfl, rfl⟩

/-- C9: `learnable_matrix` reads only the shape of its adjacency argument
(`A.size()` and `A.size(0)` in the source, the type indices `KA, V` here),
never its entries: two adjacency tensors of the same shape give the same
returned matrix, for every input and parameter set. -/
theorem learnableMatrix_ignores_adjacency_values (e : ℚ → ℚ)
    {N Cin Cout Tin V KA : ℕ} {K tk : ℕ} (p : GCNParams Cin Cout K tk)
    (x : Fin N → Fin Cin → Fin Tin → Fin V → ℚ)
    (A A' : Fin KA → Fin V → Fin V → ℚ) :
    learnableMatrix e p x A = learnableMatrix e p x A' :=
  rfl

/-- C1: whenever the matrix returned by `learnable_matrix` has leading
dimension `K` (so that the claim's indexing `M[k, v, w]` is well-formed),
the first output of `forward` at batch `n`, output channel `c`, time `t`,
node `w` is the contraction
`sum_k sum_v reshaped[n,k,c,t,v] * (A[k,v,w] + M[k,v,w])`, where
`reshaped` is the temporal-convolution output (with `K * Cout` channels)
reshaped so the channel index decomposes as `(k, c)` with `k` varying
slower, and `M = learnable_matrix(x, A)`. -/
theorem forward_contraction (e : ℚ → ℚ) {N Cin Cout K tk : ℕ}
    (ts tp td : ℕ) {Tin V : ℕ} (p : GCNParams Cin Cout K tk)
    (x : Fin N → Fin Cin → Fin Tin → Fin V → ℚ)
    (A : Fin K → Fin V → Fin V → ℚ) (hm : mDim N K = K)
    (n : Fin N) (c : Fin Cout) (t : Fin (outLen Tin tk ts tp td))
    (w : Fin V) :
    (forward e ts tp td p x A).1 n c t w =
      ∑ k : Fin K, ∑ v : Fin V,
        reshapedFeature ts tp td p x n k c t v *
          (A k v w +
            learnableMatrix e p x A (Fin.cast hm.symm k) v w) := by
  simp only [forward, broadcastGet, dif_pos hm]

/-- C1 witness: the contraction formula instantiated at batch size 2 and
kernel size 1, where the leading dimension of the learned matrix is the
kernel size. -/
theorem forward_contraction_witness :
    mDim 2 1 = 1 ∧
      (forward e1 1 0 1 p1 xN2 Aone1).1 0 0 ⟨0, by decide⟩ 0 =
        ∑ k : Fin 1, ∑ v : Fin 1,
          reshapedFeature 1 0 1 p1 xN2 0 k 0 ⟨0, by decide⟩ v *
            (Aone1 k v 0 +
              learnableMatrix e1 p1 xN2 Aone1
                (Fin.cast (rfl : mDim 2 1 = 1).symm k) v 0) :=
  ⟨rfl, forward_contraction e1 1 0 1 p1 xN2 Aone1 rfl 0 0 ⟨0, by decide⟩ 0⟩

/-- C4: for batch size at least 2 the pre-softmax tensor `result` built in
`learnable_matrix` has leading dimension `A.size(0)` (so shape `(K, V, V)`),
every one of its slices equals the affinity matrix of batch element 0, and
it is invariant under any change to batch elements other than element 0. -/
theorem preResult_broadcast_sample0 {N Cin Cout Tin V : ℕ} {K tk : ℕ}
    (KA : ℕ) (p : GCNParams Cin Cout K tk)
    (x : Fin N → Fin Cin → Fin Tin → Fin V → ℚ) (hN : 2 ≤ N) :
    mDim N KA = KA ∧
      (∀ (k : Fin (mDim N KA)) (v w : Fin V),
        preResult KA p x k v w =
          concatMatrix p x ⟨0, Nat.lt_of_lt_of_le Nat.zero_lt_two hN⟩ v w) ∧
      (∀ x' : Fin N → Fin Cin → Fin Tin → Fin V → ℚ,
        (∀ (c : Fin Cin) (t : Fin Tin) (v : Fin V),
            x ⟨0, Nat.lt_of_lt_of_le Nat.zero_lt_two hN⟩ c t v =
              x' ⟨0, Nat.lt_of_lt_of_le Nat.zero_lt_two hN⟩ c t v) →
        ∀ (k : Fin (mDim N KA)) (v w : Fin V),
          preResult KA p x k v w = preResult KA p x' k v w) := by
  refine ⟨by rw [mDim, if_pos hN], fun k v w => ?_, fun x' hx k v w => ?_⟩
  · rw [preResult, dif_pos hN]
  · rw [preResult, dif_pos hN, preResult, dif_pos hN]
    unfold concatMatrix A1mat A2mat conv1x1
    congr 1
    apply Finset.sum_congr rfl
    intro j _
    simp only [hx]

/-- C4 witness: the sample-0 broadcast property instantiated at batch size 2
with two distinct batch elements. -/
theorem preResult_broadcast_sample0_witness :
    2 ≤ 2 ∧
      (mDim 2 1 = 1 ∧
        (∀ (k : Fin (mDim 2 1)) (v w : Fin 1),
          preResult 1 p1 xN2 k v w = concatMatrix p1 xN2 ⟨0, by decide⟩ v w) ∧
        (∀ x' : Fin 2 → Fin 1 → Fin 1 → Fin 1 → ℚ,
          (∀ (c : Fin 1) (t : Fin 1) (v : Fin 1),
              xN2 ⟨0, by decide⟩ c t v = x' ⟨0, by decide⟩ c t v) →
          ∀ (k : Fin (mDim 2 1)) (v w : Fin 1),
            preResult 1 p1 xN2 k v w = preResult 1 p1 x' k v w)) :=
  ⟨by decide, preResult_broadcast_sample0 1 p1 xN2 (by decide)⟩

/-- C5: calling `forward` with an adjacency whose leading dimension differs
from the configured kernel size trips the assert and aborts (returns
`none`), for every batch size at least 1; the outcome is independent of the
learned parameters and of the input values, so no convolution
(temporal convolution, projection A or projection B) influences it. -/
theorem forward_assert_kernel_mismatch (e : ℚ → ℚ) {N Cin Cout K tk : ℕ}
    (ts tp td : ℕ) {Tin V KA : ℕ} (p : GCNParams Cin Cout K tk)
    (x : Fin N → Fin Cin → Fin Tin → Fin V → ℚ)
    (A : Fin KA → Fin V → Fin V → ℚ) (hKA : KA ≠ K) (hN : 1 ≤ N) :
    forwardChecked e ts tp td p x A = none ∧
      ∀ (p' : GCNParams Cin Cout K tk)
        (x' : Fin N → Fin Cin → Fin Tin → Fin V → ℚ),
        forwardChecked e ts tp td p' x' A = none := by
  refine ⟨?_, fun p' x' => ?_⟩
  · rw [forwardChecked, dif_neg hKA]
  · rw [forwardChecked, dif_neg hKA]

/-- C5 witness: a kernel-size-1 unit called with an adjacency of leading
dimension 2 aborts at the assert, whatever the parameters and input. -/
theorem forward_assert_kernel_mismatch_witness :
    (2 : ℕ) ≠ 1 ∧ 1 ≤ 1 ∧
      (forwardChecked e1 1 0 1 p1 x1 Aone2 = none ∧
        ∀ (p' : GCNParams 1 1 1 1)
          (x' : Fin 1 → Fin 1 → Fin 1 → Fin 1 → ℚ),
          forwardChecked e1 1 0 1 p' x' Aone2 = none) :=
  ⟨by decide, by decide,
    forward_assert_kernel_mismatch e1 1 0 1 p1 x1 Aone2 (by decide) (by decide)⟩

/-- C6: the unnormalised affinity `concat_matrix` is, per batch element, the
`(V, Cout*T) x (Cout*T, V)` product of the permuted-and-flattened
projection-A output with the flattened projection-B output, every entry
divided by the contraction length `Cout*T`; and (for batch size 1) every
slice of the returned matrix sums to 1 along the node axis normalised by
the final softmax, provided the exponential is positive. -/
theorem concat_scaling_softmax_normalized (e : ℚ → ℚ)
    {N Cin Cout Tin V KA : ℕ} {K tk : ℕ} (p : GCNParams Cin Cout K tk)
    (x : Fin N → Fin Cin → Fin Tin → Fin V → ℚ)
    (A : Fin KA → Fin V → Fin V → ℚ)
    (he : ∀ q, 0 < e q) :
    (∀ (n : Fin N) (v w : Fin V),
        concatMatrix p x n v w =
          (∑ j : Fin (Cout * Tin), A1mat p x n v j * A2mat p x n j w) /
            ((Cout * Tin : ℕ) : ℚ)) ∧
      (N = 1 →
        ∀ (k : Fin (mDim N KA)) (v : Fin V),
          ∑ w : Fin V, learnableMatrix e p x A k v w = 1) := by
  refine ⟨fun n v w => rfl, fun _ k v => ?_⟩
  simp only [learnableMatrix, softmaxDim2]
  rw [← Finset.sum_div]
  exact div_self (ne_of_gt
    (Finset.sum_pos (fun u _ => he _) ⟨v, Finset.mem_univ v⟩))

/-- C6 witness: the scaled-product form and the sum-to-one normalisation
instantiated at batch size 1 with a concrete positive exponential. -/
theorem concat_scaling_softmax_normalized_witness :
    (∀ q : ℚ, 0 < e1 q) ∧
      ((∀ (n : Fin 1) (v w : Fin 1),
          concatMatrix p1 x1 n v w =
            (∑ j : Fin (1 * 1), A1mat p1 x1 n v j * A2mat p1 x1 n j w) /
              ((1 * 1 : ℕ) : ℚ)) ∧
        ((1 : ℕ) = 1 →
          ∀ (k : Fin (mDim 1 1)) (v : Fin 1),
            ∑ w : Fin 1, learnableMatrix e1 p1 x1 Aone1 k v w = 1)) :=
  ⟨fun _ => one_pos,
    concat_scaling_softmax_normalized e1 p1 x1 Aone1 (fun _ => one_pos)⟩

/-- C10: for batch size exactly 1 and kernel size greater than 1, the matrix
returned by `learnable_matrix` has leading dimension 1 (shape `(1, V, V)`,
not `(K, V, V)`), and in the aggregation the broadcast of `A + M` adds this
single learned slice `M[0]` to every one of the `K` fixed adjacency
slices. -/
theorem batch1_broadcast_single_slice (e : ℚ → ℚ) {N Cin Cout K tk : ℕ}
    (ts tp td : ℕ) {Tin V : ℕ} (p : GCNParams Cin Cout K tk)
    (x : Fin N → Fin Cin → Fin Tin → Fin V → ℚ)
    (A : Fin K → Fin V → Fin V → ℚ) (hN : N = 1) (hK : 1 < K)
    (n : Fin N) (c : Fin Cout) (t : Fin (outLen Tin tk ts tp td))
    (w : Fin V) :
    mDim N K = 1 ∧ mDim N K ≠ K ∧
      (forward e ts tp td p x A).1 n c t w =
        ∑ k : Fin K, ∑ v : Fin V,
          reshapedFeature ts tp td p x n k c t v *
            (A k v w +
              learnableMatrix e p x A
                (Fin.cast (by rw [hN, mDim]; norm_num : (1 : ℕ) = mDim N K)
                  (0 : Fin 1))
                v w) := by
  subst hN
  have h1 : mDim 1 K = 1 := rfl
  have hne : mDim 1 K ≠ K := by rw [h1]; exact Nat.ne_of_lt hK
  refine ⟨h1, hne, ?_⟩
  simp only [forward, broadcastGet, dif_neg hne, dif_pos h1]

/-- C10 witness: the single-slice broadcast instantiated at batch size 1 and
kernel size 2. -/
theorem batch1_broadcast_single_slice_witness :
    (1 : ℕ) = 1 ∧ 1 < 2 ∧
      (mDim 1 2 = 1 ∧ mDim 1 2 ≠ 2 ∧
        (forward e1 1 0 1 p21 x1 Aone2).1 0 0 ⟨0, by decide⟩ 0 =
          ∑ k : Fin 2, ∑ v : Fin 1,
            reshapedFeature 1 0 1 p21 x1 0 k 0 ⟨0, by decide⟩ v *
              (Aone2 k v 0 +
                learnableMatrix e1 p21 x1 Aone2
                  (Fin.cast (by decide : (1 : ℕ) = mDim 1 2) (0 : Fin 1))
                  v 0)) :=
  ⟨rfl, by decide,
    batch1_broadcast_single_slice e1 1 0 1 p21 x1 Aone2 rfl (by decide)
      0 0 ⟨0, by decide⟩ 0⟩

end TGCN
